import Mathlib

/-!
Shallow embedding of the card-game engine in `project/game/src`
(`card.py`, `bot.py`, `game.py`), together with theorems settling the
spec claims about it.

Conventions of the embedding:
* Python `int` scores and targets become `Int`; monetary amounts
  (balances and bets, Python `int`/`float`) become `ℚ`.
* A `Hand` is its list of cards; a `Deck` is its list of cards, drawn
  by popping the last element (Python `list.pop()`).
* Fallible constructors/methods (`Bot.place_bet`, `Game.__init__`)
  return `Except String`.
* Object identity (`b is not winner` in `_distribute_pot`) becomes
  positional identity: the winner is an index into the bot list.
-/

namespace CardGame

/-- A playing card (`card.py`, `Card`): suit string and rank 1..13. -/
structure Card where
  suit : String
  rank : Nat
deriving DecidableEq, Repr

/-- `Card.value`: rank clipped to 10 (`min(self.rank, 10)`). -/
def Card.value (c : Card) : Nat := min c.rank 10

namespace Deck

/-- `Deck.suits` class attribute. -/
def suits : List String := ["Hearts", "Diamonds", "Clubs", "Spades"]

/-- `Deck.ranks` class attribute: `range(1, 14)`. -/
def ranks : List Nat := (List.range 13).map (· + 1)

/-- The card list built by `Deck.__init__` before shuffling:
`[Card(suit, rank) for suit in self.suits for rank in self.ranks]`.
A freshly constructed deck is an arbitrary permutation of this list. -/
def full : List Card := suits.flatMap (fun s => ranks.map (fun r => ⟨s, r⟩))

/-- `Deck.draw`: `self._cards.pop() if self._cards else None`.
Returns the popped card (the list's last element) and the rest. -/
def draw (d : List Card) : Option Card × List Card :=
  match d.getLast? with
  | none => (none, d)
  | some c => (some c, d.dropLast)

/-- The results of `n` successive `draw()` calls on deck `d`. -/
def drawSeq : Nat → List Card → List (Option Card)
  | 0, _ => []
  | n + 1, d => (draw d).1 :: drawSeq n (draw d).2

end Deck

/-! ### Hand scoring (`bot.py`, `Hand.calculate_score`) -/

/-- `sum(c.value for c in self._cards)`. -/
def base_sum (hand : List Card) : Int := (hand.map (fun c => (c.value : Int))).sum

/-- `sum(1 for c in self._cards if c.rank == 1)`. -/
def count_aces (hand : List Card) : Nat := (hand.filter (fun c => c.rank == 1)).length

/-- The `while aces and score <= target_score - 10` promotion loop of
`Hand.calculate_score`, recursing on the number of remaining aces. -/
def promote_aces (target : Int) : Nat → Int → Int
  | 0, score => score
  | n + 1, score =>
      if score ≤ target - 10 then promote_aces target n (score + 10) else score

/-- `Hand.calculate_score(target_score)`. -/
def calculate_score (hand : List Card) (target : Int) : Int :=
  promote_aces target (count_aces hand) (base_sum hand)

/-! ### Bots (`bot.py`) -/

/-- The strategy tag of a bot class. `default` stands for a bot class with
no `strategy` attribute, whose `decide` is the base `Bot.decide`. -/
inductive Strategy where
  | conservative
  | aggressive
  | mixed
  | balanced
  | intuitive
  | default
deriving DecidableEq, Repr

/-- The mutable state of a `Bot` instance. -/
structure Bot where
  name : String
  balance : ℚ
  currentBet : ℚ
  isActive : Bool
  hand : List Card
  strategy : Strategy
deriving DecidableEq, Repr

/-- `Bot.decide(target_score)` as dispatched by `BotMeta.__new__` for the
tagged strategies, `IntuitiveBot.decide` for `intuitive`, and the base
`Bot.decide` (hit while score < 17) otherwise. -/
def Bot.decide (b : Bot) (target : Int) : Bool :=
  match b.strategy with
  | .conservative => calculate_score b.hand target < target - 5
  | .aggressive => calculate_score b.hand target < target - 2
  | .mixed => calculate_score b.hand target % 2 == 0
  | .balanced => calculate_score b.hand target < target - 4
  | .intuitive =>
      let score := calculate_score b.hand target
      let totalCards := b.hand.length
      if totalCards < 2 ∧ score < 15 then true
      else if totalCards = 2 ∧ score < 17 then true
      else false
  | .default => calculate_score b.hand target < 17

/-- `Bot.place_bet(amount)`: validates, then records `current_bet`
without touching `balance`. -/
def Bot.place_bet (b : Bot) (amount : ℚ) : Except String Bot :=
  if amount < 0 then .error "Bet amount must be non-negative"
  else if amount > b.balance then .error "Insufficient balance to place the bet"
  else .ok { b with currentBet := amount }

/-! ### Game construction (`game.py`, `GameMeta` / `Game.__init__`) -/

namespace Game

/-- The `target_score` default injected by `GameMeta` at class creation. -/
def classTargetScore : Int := 21

/-- The configuration stored by a successfully constructed `Game`. -/
structure Config where
  bots : List Bot
  maxSteps : Int
  targetScore : Int
deriving DecidableEq, Repr

/-- `self.target_score = target_score or type(self).target_score`:
`None` and the falsy `0` fall back to the class default. -/
def resolveTarget : Option Int → Int
  | none => classTargetScore
  | some v => if v ≠ 0 then v else classTargetScore

/-- `Game.__init__`: rejects `max_steps <= 0`, otherwise stores the bots,
`max_steps` and the resolved `target_score`. -/
def mk (bots : List Bot) (maxSteps : Int) (targetScore : Option Int) :
    Except String Config :=
  if maxSteps ≤ 0 then .error "max_steps must be a positive integer > 0"
  else .ok ⟨bots, maxSteps, resolveTarget targetScore⟩

/-- Shorthand for a bot's score against the game's target
(`b.hand.calculate_score(self.target_score)`). -/
def score (target : Int) (b : Bot) : Int := calculate_score b.hand target

/-! ### Round loop (`Game._play_round`) -/

/-- One pass of the `for bot in self._bots` loop of `_play_round`.
Returns the deck and the bot list after the round.  Note that the code
calls `bot.decide()` with no argument, so the decision always uses the
default `target_score=21`, while the bust/stay check uses the game's
target.  When `_draw_card()` returns `None` the loop `break`s: the
current bot and every later bot are returned untouched. -/
def playRound (target : Int) : List Card → List Bot → List Card × List Bot
  | deck, [] => (deck, [])
  | deck, b :: rest =>
    if b.isActive = false then
      let p := playRound target deck rest
      (p.1, b :: p.2)
    else if target ≤ score target b then
      let p := playRound target deck rest
      (p.1, { b with isActive := false } :: p.2)
    else if b.decide 21 then
      match Deck.draw deck with
      | (none, _) => (deck, b :: rest)
      | (some c, deck1) =>
        let p := playRound target deck1 rest
        (p.1, { b with hand := b.hand ++ [c] } :: p.2)
    else
      let p := playRound target deck rest
      (p.1, b :: p.2)

/-- Whether a bot, when reached inside `_play_round`, will attempt to
draw a card: it is active, below the target, and `decide()` says hit. -/
def attemptsDraw (target : Int) (b : Bot) : Bool :=
  b.isActive && decide (score target b < target) && b.decide 21

/-! ### Winner heuristic (`Game._determine_winner`) -/

/-- `max(valid, key=...)` on a nonempty list: Python's `max` keeps the
first element whose key is maximal, replacing only on strict increase. -/
def pickMax (target : Int) (acc : Bot) : List Bot → Bot
  | [] => acc
  | x :: rest => pickMax target (if score target x > score target acc then x else acc) rest

/-- `Game._determine_winner`: among the bots with score ≤ target, the
first exact-target bot if any, else the first with maximal score;
`None` if no bot is within the target. -/
def determine_winner (target : Int) (bots : List Bot) : Option Bot :=
  match bots.filter (fun b => score target b ≤ target) with
  | [] => none
  | v :: vs =>
    match (v :: vs).find? (fun b => score target b == target) with
    | some b => some b
    | none => some (pickMax target v vs)

/-! ### Settlement (`Game._distribute_pot` / `Game._conclude`) -/

/-- `sum(b.current_bet for b in self._bots if b is not winner)`, with the
winner identified by position `w`; `i` is the position of the list head. -/
def sum_other_bets (w : Nat) : Nat → List Bot → ℚ
  | _, [] => 0
  | i, b :: rest => (if i = w then 0 else b.currentBet) + sum_other_bets w (i + 1) rest

/-- The per-bot effect of `_distribute_pot`: the winner gains the pot,
everyone else pays their own bet, and every bet is zeroed. -/
def settle_bot (w : Nat) (total : ℚ) (i : Nat) (b : Bot) : Bot :=
  if i = w then { b with balance := b.balance + total, currentBet := 0 }
  else { b with balance := b.balance - b.currentBet, currentBet := 0 }

/-- The `for bot in self._bots` loop of `_distribute_pot`. -/
def settle (w : Nat) (total : ℚ) : Nat → List Bot → List Bot
  | _, [] => []
  | i, b :: rest => settle_bot w total i b :: settle w total (i + 1) rest

/-- `Game._distribute_pot(winner)` with the winner given by its position
`w` in the bot list. -/
def distribute_pot (bots : List Bot) (w : Nat) : List Bot :=
  settle w (sum_other_bets w 0 bots) 0 bots

/-- `Game._conclude(winner)`: with a winner, distribute the pot; with
`None`, log and return — the bot list is left untouched. -/
def conclude (bots : List Bot) : Option Nat → List Bot
  | none => bots
  | some w => distribute_pot bots w

/-! ### The game loop (`Game._rounds`) -/

/-- The termination checks run after each round: a single surviving
active bot wins, else the first active bot at exactly the target wins,
else the loop continues via `next`. -/
def terminationStep (target : Int) (next : List Card → List Bot → Option Bot × List Bot)
    (deck : List Card) (bots : List Bot) : Option Bot × List Bot :=
  let active := bots.filter (fun b => b.isActive)
  if active.length = 1 then (active.head?, bots)
  else
    match active.find? (fun b => score target b == target) with
    | some b => (some b, bots)
    | none => next deck bots

/-- `Game._rounds`, on the remaining number of steps: play a round, run
the termination checks, and on step exhaustion fall back to
`_determine_winner`.  Returns the winner (if any) and the bot list as it
stands when the game ends, before `_conclude` settles it. -/
def runRounds (target : Int) : Nat → List Card → List Bot → Option Bot × List Bot
  | 0, _, bots => (determine_winner target bots, bots)
  | n + 1, deck, bots =>
    let p := playRound target deck bots
    terminationStep target (runRounds target n) p.1 p.2

end Game

/-- The closed form stated by the spec for hand scoring: start from the
sum of card values, then while at least one ace remains unpromoted and
the running score is ≤ target − 10, add 10 and consume one ace. -/
def closed_form_score (target : Int) : Nat → Int → Int
  | 0, score => score
  | aces + 1, score =>
      if score ≤ target - 10 then closed_form_score target aces (score + 10) else score

/-- A concrete bot used to instantiate witnesses. -/
def demoBot : Bot :=
  { name := "Alice", balance := 1000, currentBet := 0, isActive := true
    hand := [], strategy := .default }

/-- Three concrete bots with pending bets, used for settlement
witnesses and counterexamples. -/
def demoBots : List Bot :=
  [{ name := "Alice", balance := 1000, currentBet := 10, isActive := true
     hand := [], strategy := .default },
   { name := "Bob", balance := 900, currentBet := 5, isActive := false
     hand := [], strategy := .aggressive },
   { name := "Carol", balance := 800, currentBet := 7, isActive := true
     hand := [], strategy := .mixed }]

/-- Three concrete active bots with empty hands, used for the mid-round
deck-exhaustion witness: bot 0 draws the deck's last card and bot 1's
draw then fails. -/
def demoDrawBots : List Bot :=
  [{ name := "Alice", balance := 1000, currentBet := 10, isActive := true
     hand := [], strategy := .default },
   { name := "Bob", balance := 900, currentBet := 5, isActive := true
     hand := [], strategy := .default },
   { name := "Carol", balance := 800, currentBet := 7, isActive := true
     hand := [], strategy := .mixed }]

/-- Two concrete bots that have both busted (score 22 > 21), used for
the winner-heuristic witness. -/
def demoBustedBots : List Bot :=
  [{ name := "Alice", balance := 1000, currentBet := 0, isActive := false
     hand := [⟨"Hearts", 10⟩, ⟨"Spades", 10⟩, ⟨"Clubs", 2⟩], strategy := .default },
   { name := "Bob", balance := 1000, currentBet := 0, isActive := false
     hand := [⟨"Hearts", 13⟩, ⟨"Spades", 12⟩, ⟨"Clubs", 5⟩], strategy := .default }]

end CardGame

namespace CardGame

lemma promote_aces_eq_closed_form (t : Int) :
    ∀ (n : Nat) (s : Int), promote_aces t n s = closed_form_score t n s := by
  intro n
  induction n with
  | zero => intro s; rfl
  | succ k ih =>
    intro s
    simp only [promote_aces, closed_form_score]
    split
    · exact ih (s + 10)
    · rfl

/-- C3: `Hand.calculate_score(target)` equals the spec's closed form
(base sum of `min(rank,10)` values, then promote aces by +10 while the
score stays ≤ target − 10), and the hand {10,10,2} scores 22 under
target 21. -/
theorem C3_calculate_score_closed_form (hand : List Card) (t : Int) :
    calculate_score hand t = closed_form_score t (count_aces hand) (base_sum hand)
    ∧ calculate_score [⟨"Hearts", 10⟩, ⟨"Spades", 10⟩, ⟨"Clubs", 2⟩] 21 = 22 := by
  constructor
  · exact promote_aces_eq_closed_form t (count_aces hand) (base_sum hand)
  · decide

/-- C4: `decide(t)` returns `True` exactly when the strategy's table
condition holds on the current score `s = calculate_score(t)`:
conservative iff s < t−5, aggressive iff s < t−2, mixed iff s is even,
balanced iff s < t−4, intuitive iff (fewer than 2 cards and s < 15) or
(exactly 2 cards and s < 17), default iff s < 17. -/
theorem C4_decide_strategy_table (b : Bot) (t : Int) :
    b.decide t = true ↔
      (match b.strategy with
       | .conservative => calculate_score b.hand t < t - 5
       | .aggressive => calculate_score b.hand t < t - 2
       | .mixed => Even (calculate_score b.hand t)
       | .balanced => calculate_score b.hand t < t - 4
       | .intuitive =>
           (b.hand.length < 2 ∧ calculate_score b.hand t < 15) ∨
           (b.hand.length = 2 ∧ calculate_score b.hand t < 17)
       | .default => calculate_score b.hand t < 17) := by
  cases h : b.strategy <;>
    simp only [Bot.decide, h, decide_eq_true_eq, beq_iff_eq, Int.even_iff]
  case intuitive =>
    split
    · simp_all
    · split <;> simp_all

/-- C7: `place_bet(amount)` fails exactly when the amount is negative or
exceeds the balance; on success it records `current_bet = amount` and
leaves `balance` (and everything else) unchanged. -/
theorem C7_place_bet_validation (b : Bot) (a : ℚ) :
    ((a < 0 ∨ b.balance < a) ↔ ∃ msg, b.place_bet a = .error msg)
    ∧ (0 ≤ a → a ≤ b.balance → b.place_bet a = .ok { b with currentBet := a }) := by
  constructor
  · constructor
    · intro h
      rcases lt_or_le a 0 with hneg | hpos
      · exact ⟨"Bet amount must be non-negative", by simp [Bot.place_bet, hneg]⟩
      · have hgt : b.balance < a := by
          rcases h with h | h
          · exact absurd h (not_lt.mpr hpos)
          · exact h
        exact ⟨"Insufficient balance to place the bet",
          by simp [Bot.place_bet, not_lt.mpr hpos, hgt]⟩
    · intro ⟨msg, hmsg⟩
      by_contra hc
      push_neg at hc
      obtain ⟨h1, h2⟩ := hc
      simp [Bot.place_bet, not_lt.mpr h1, not_lt.mpr h2] at hmsg
  · intro h1 h2
    simp [Bot.place_bet, not_lt.mpr h1, not_lt.mpr h2]

/-- C7 witness: placing a bet of 5 on a fresh bot succeeds and records
the bet. -/
theorem C7_place_bet_validation_witness :
    demoBot.place_bet 5 = .ok { demoBot with currentBet := 5 } :=
  (C7_place_bet_validation demoBot 5).2 (by norm_num) (by norm_num [demoBot])

/-- C8: `Game` construction fails exactly when `max_steps ≤ 0`; on
success `target_score` defaults to 21 and an explicit 15 overrides it. -/
theorem C8_game_construction (bots : List Bot) (ms : Int) (t : Option Int) :
    (ms ≤ 0 ↔ ∃ msg, Game.mk bots ms t = .error msg)
    ∧ (0 < ms → Game.mk bots ms none = .ok ⟨bots, ms, 21⟩)
    ∧ (0 < ms → Game.mk bots ms (some 15) = .ok ⟨bots, ms, 15⟩) := by
  refine ⟨⟨fun h => ⟨"max_steps must be a positive integer > 0",
    by simp [Game.mk, h]⟩, ?_⟩, fun h => ?_, fun h => ?_⟩
  · intro ⟨msg, hmsg⟩
    by_contra hc
    simp [Game.mk, hc] at hmsg
  · simp [Game.mk, not_le.mpr h, Game.resolveTarget, Game.classTargetScore]
  · simp [Game.mk, not_le.mpr h, Game.resolveTarget]

/-- C8 witness: `Game(bots=[], max_steps=1)` succeeds with the default
target 21, and an explicit target 15 overrides it. -/
theorem C8_game_construction_witness :
    Game.mk [] 1 none = .ok ⟨[], 1, 21⟩ ∧ Game.mk [] 1 (some 15) = .ok ⟨[], 1, 15⟩ :=
  ⟨(C8_game_construction [] 1 none).2.1 (by decide),
   (C8_game_construction [] 1 (some 15)).2.2 (by decide)⟩

/-- C10: an explicit `target_score=0` is falsy in
`target_score or type(self).target_score`, so it falls back to the class
default 21, while any nonzero explicit value is stored as given. -/
theorem C10_falsy_target_score (bots : List Bot) (ms : Int) (v : Int) (h : 0 < ms) :
    Game.mk bots ms (some 0) = .ok ⟨bots, ms, 21⟩
    ∧ (v ≠ 0 → Game.mk bots ms (some v) = .ok ⟨bots, ms, v⟩) := by
  constructor
  · simp [Game.mk, not_le.mpr h, Game.resolveTarget, Game.classTargetScore]
  · intro hv
    simp [Game.mk, not_le.mpr h, Game.resolveTarget, hv]

/-- C10 witness: explicit target 0 yields 21; explicit −3 (nonzero,
falsy only for 0) is stored as −3. -/
theorem C10_falsy_target_score_witness :
    Game.mk [] 1 (some 0) = .ok ⟨[], 1, 21⟩
    ∧ Game.mk [] 1 (some (-3)) = .ok ⟨[], 1, -3⟩ :=
  ⟨(C10_falsy_target_score [] 1 (-3) (by decide)).1,
   (C10_falsy_target_score [] 1 (-3) (by decide)).2 (by decide)⟩

lemma settle_getElem (w : Nat) (total : ℚ) :
    ∀ (l : List Bot) (i j : Nat),
      (Game.settle w total i l)[j]? = (l[j]?).map (Game.settle_bot w total (i + j)) := by
  intro l
  induction l with
  | nil => intro i j; simp [Game.settle]
  | cons b rest ih =>
    intro i j
    cases j with
    | zero => simp [Game.settle]
    | succ k =>
      have harith : i + 1 + k = i + (k + 1) := by omega
      simp only [Game.settle, List.getElem?_cons_succ, ih (i + 1) k, harith]

lemma settle_length (w : Nat) (total : ℚ) :
    ∀ (l : List Bot) (i : Nat), (Game.settle w total i l).length = l.length := by
  intro l
  induction l with
  | nil => intro i; rfl
  | cons b rest ih => intro i; simp [Game.settle, ih]

/-- C1: settling with winner at position `w` adds the sum of all other
bots' bets to the winner's balance, subtracts each other bot's own bet
from its balance (regardless of its active/busted state), and zeroes
every bot's `current_bet`. -/
theorem C1_distribute_pot_settlement (bots : List Bot) (w : Nat) (hw : w < bots.length) :
    ((Game.distribute_pot bots w)[w]?).map Bot.balance
        = some (bots[w].balance + Game.sum_other_bets w 0 bots)
    ∧ (∀ i, i < bots.length → i ≠ w →
        ((Game.distribute_pot bots w)[i]?).map Bot.balance
          = (bots[i]?).map (fun b => b.balance - b.currentBet))
    ∧ (∀ i, i < bots.length →
        ((Game.distribute_pot bots w)[i]?).map Bot.currentBet = some 0) := by
  refine ⟨?_, fun i hi hne => ?_, fun i hi => ?_⟩
  · rw [Game.distribute_pot, settle_getElem, List.getElem?_eq_getElem hw]
    simp [Game.settle_bot]
  · rw [Game.distribute_pot, settle_getElem, List.getElem?_eq_getElem hi]
    simp [Game.settle_bot, Nat.zero_add, hne]
  · rw [Game.distribute_pot, settle_getElem, List.getElem?_eq_getElem hi]
    by_cases h : i = w <;> simp [Game.settle_bot, h]

/-- C1 witness: with three bots betting 10, 5, 7 and the winner at
position 0, the winner's balance rises by 12 and the others pay their
own bets, all bets ending at 0. -/
theorem C1_distribute_pot_settlement_witness :
    ((Game.distribute_pot demoBots 0)[0]?).map Bot.balance = some 1012
    ∧ ((Game.distribute_pot demoBots 0)[1]?).map Bot.balance = some 895
    ∧ ((Game.distribute_pot demoBots 0)[2]?).map Bot.balance = some 793
    ∧ ((Game.distribute_pot demoBots 0)[1]?).map Bot.currentBet = some 0 := by
  have h := C1_distribute_pot_settlement demoBots 0 (by norm_num [demoBots])
  refine ⟨h.1.trans (by norm_num [demoBots, Game.sum_other_bets]), ?_, ?_,
    h.2.2 1 (by norm_num [demoBots])⟩
  · exact (h.2.1 1 (by norm_num [demoBots]) (by norm_num)).trans
      (by norm_num [demoBots])
  · exact (h.2.1 2 (by norm_num [demoBots]) (by norm_num)).trans
      (by norm_num [demoBots])

/-- C2 counterexample: concluding with no winner leaves the pending
bets untouched, so with bets 10, 5, 7 it is false that every bot's
`current_bet` is reset to zero. -/
theorem C2_no_winner_counterexample :
    ¬ ∀ b ∈ Game.conclude demoBots none, b.currentBet = 0 := by
  intro h
  have h0 := h ⟨"Alice", 1000, 10, true, [], .default⟩
    (by simp [Game.conclude, demoBots])
  norm_num at h0

/-- C2 (amended): when the game concludes with no winner, `_conclude`
returns immediately: no bot's balance changes and no bot's
`current_bet` changes either — the reset to zero happens only on the
winner path. -/
theorem C2_no_winner_frame (bots : List Bot) :
    (Game.conclude bots none).map Bot.balance = bots.map Bot.balance
    ∧ (Game.conclude bots none).map Bot.currentBet = bots.map Bot.currentBet :=
  ⟨rfl, rfl⟩

lemma drawSeq_nil : ∀ n, Deck.drawSeq n [] = List.replicate n none := by
  intro n
  induction n with
  | zero => rfl
  | succ k ih => simp [Deck.drawSeq, Deck.draw, ih, List.replicate_succ]

lemma drawSeq_exhaust (d : List Card) :
    ∀ n, Deck.drawSeq (d.length + n) d = d.reverse.map some ++ List.replicate n none := by
  induction d using List.reverseRecOn with
  | nil => intro n; simpa using drawSeq_nil n
  | append_singleton l a ih =>
    intro n
    have hdraw : Deck.draw (l ++ [a]) = (some a, l) := by
      simp [Deck.draw]
    have hlen : (l ++ [a]).length + n = (l.length + n) + 1 := by
      simp; omega
    rw [hlen]
    simp only [Deck.drawSeq, hdraw]
    rw [ih n]
    simp

lemma full_deck_length : Deck.full.length = 52 := by decide

lemma full_deck_nodup : Deck.full.Nodup := by decide

/-- C6: on a freshly constructed deck (any permutation of the 52-card
set), 52 successive draws return exactly the deck's cards — pairwise
distinct and covering all 4 suits × 13 ranks — and the 53rd draw, like
every draw on an empty deck, returns the empty signal `none`. -/
theorem C6_deck_52_draws (d : List Card) (hd : d.Perm Deck.full) :
    Deck.drawSeq 52 d = d.reverse.map some
    ∧ (Deck.drawSeq 52 d).Nodup
    ∧ (∀ s r, s ∈ Deck.suits → r ∈ Deck.ranks →
        some (⟨s, r⟩ : Card) ∈ Deck.drawSeq 52 d)
    ∧ Deck.drawSeq 53 d = d.reverse.map some ++ [none]
    ∧ Deck.draw [] = (none, []) := by
  have hlen : d.length = 52 := hd.length_eq.trans full_deck_length
  have h52 : Deck.drawSeq 52 d = d.reverse.map some := by
    have h := drawSeq_exhaust d 0
    rw [hlen] at h
    simpa using h
  have h53 : Deck.drawSeq 53 d = d.reverse.map some ++ [none] := by
    have h := drawSeq_exhaust d 1
    rw [hlen] at h
    simpa using h
  refine ⟨h52, ?_, ?_, h53, rfl⟩
  · rw [h52]
    exact ((List.nodup_reverse.mpr (hd.nodup_iff.mpr full_deck_nodup)).map
      (Option.some_injective _))
  · intro s r hs hr
    have hmem : (⟨s, r⟩ : Card) ∈ Deck.full := by
      simp only [Deck.full, List.mem_flatMap]
      exact ⟨s, hs, List.mem_map.mpr ⟨r, hr, rfl⟩⟩
    rw [h52]
    exact List.mem_map.mpr ⟨⟨s, r⟩, List.mem_reverse.mpr (hd.mem_iff.mpr hmem), rfl⟩

/-- C6 witness: the unshuffled full deck itself, drawn 53 times, yields
its 52 cards in reverse order followed by the empty signal. -/
theorem C6_deck_52_draws_witness :
    Deck.drawSeq 53 Deck.full = Deck.full.reverse.map some ++ [none]
    ∧ Deck.draw [] = (none, []) :=
  ⟨(C6_deck_52_draws Deck.full (List.Perm.refl _)).2.2.2.1,
   (C6_deck_52_draws Deck.full (List.Perm.refl _)).2.2.2.2⟩

lemma pickMax_le (t : Int) :
    ∀ (l : List Bot) (acc : Bot),
      Game.score t acc ≤ Game.score t (Game.pickMax t acc l) := by
  intro l
  induction l with
  | nil => intro acc; exact le_refl _
  | cons x rest ih =>
    intro acc
    simp only [Game.pickMax]
    by_cases hgt : Game.score t x > Game.score t acc
    · rw [if_pos hgt]
      exact le_of_lt (lt_of_lt_of_le hgt (ih x))
    · rw [if_neg hgt]
      exact ih acc

lemma pickMax_first (t : Int) :
    ∀ (l : List Bot) (acc : Bot),
      ∃ l1 l2, acc :: l = l1 ++ Game.pickMax t acc l :: l2
        ∧ (∀ x ∈ l1, Game.score t x < Game.score t (Game.pickMax t acc l))
        ∧ (∀ x ∈ l2, Game.score t x ≤ Game.score t (Game.pickMax t acc l)) := by
  intro l
  induction l with
  | nil =>
    intro acc
    exact ⟨[], [], rfl, by simp, by simp⟩
  | cons x rest ih =>
    intro acc
    by_cases hgt : Game.score t x > Game.score t acc
    · have hstep : Game.pickMax t acc (x :: rest) = Game.pickMax t x rest := by
        simp [Game.pickMax, hgt]
      obtain ⟨l1, l2, heq, h1, h2⟩ := ih x
      rw [hstep]
      refine ⟨acc :: l1, l2, ?_, ?_, h2⟩
      · simpa using heq
      · intro y hy
        rcases List.mem_cons.mp hy with hy | hy
        · subst hy
          exact lt_of_lt_of_le hgt (pickMax_le t rest x)
        · exact h1 y hy
    · have hstep : Game.pickMax t acc (x :: rest) = Game.pickMax t acc rest := by
        simp [Game.pickMax, hgt]
      obtain ⟨l1, l2, heq, h1, h2⟩ := ih acc
      rw [hstep]
      set m := Game.pickMax t acc rest with hm
      have hxa : Game.score t x ≤ Game.score t acc := not_lt.mp hgt
      cases l1 with
      | nil =>
        simp only [List.nil_append] at heq
        injection heq with hacc hrest
        refine ⟨[], x :: rest, ?_, by simp, ?_⟩
        · simp only [List.nil_append, List.cons.injEq]
          exact ⟨hacc, trivial⟩
        · intro y hy
          rcases List.mem_cons.mp hy with hy | hy
          · subst hy
            exact le_trans hxa (le_of_eq (congrArg _ hacc))
          · exact h2 y (hrest ▸ hy)
      | cons a l1t =>
        simp only [List.cons_append] at heq
        injection heq with hacc hrest
        refine ⟨acc :: x :: l1t, l2, ?_, ?_, h2⟩
        · rw [hrest]
          simp
        · intro y hy
          have hamem : Game.score t a < Game.score t m :=
            h1 a (List.mem_cons_self a l1t)
          rcases List.mem_cons.mp hy with hy | hy
          · subst hy
            exact hacc ▸ hamem
          · rcases List.mem_cons.mp hy with hy | hy
            · subst hy
              exact lt_of_le_of_lt (le_trans hxa (le_of_eq (congrArg _ hacc))) hamem
            · exact h1 y (List.mem_cons_of_mem a hy)

lemma find?_filter_exact (t : Int) (bots : List Bot) :
    (bots.filter (fun b => Game.score t b ≤ t)).find? (fun b => Game.score t b == t)
      = bots.find? (fun b => Game.score t b == t) := by
  induction bots with
  | nil => rfl
  | cons b rest ih =>
    by_cases hle : Game.score t b ≤ t
    · rw [List.filter_cons_of_pos (by simpa using hle)]
      by_cases hexact : Game.score t b = t
      · rw [List.find?_cons_of_pos _ (by simpa using hexact),
          List.find?_cons_of_pos _ (by simpa using hexact)]
      · rw [List.find?_cons_of_neg _ (by simpa using hexact),
          List.find?_cons_of_neg _ (by simpa using hexact)]
        exact ih
    · rw [List.filter_cons_of_neg (by simpa using hle)]
      have hexact : Game.score t b ≠ t := fun h => hle (le_of_eq h)
      rw [List.find?_cons_of_neg _ (by simpa using hexact)]
      exact ih

/-- C5: `_determine_winner` yields no winner when every bot's score
exceeds the target; otherwise it picks the first bot (in construction
order) whose score is exactly the target if one exists, and otherwise
the first bot attaining the maximal score among those within the
target. -/
theorem C5_determine_winner_heuristic (t : Int) (bots : List Bot) :
    ((∀ b ∈ bots, t < Game.score t b) → Game.determine_winner t bots = none)
    ∧ (∀ b0, bots.find? (fun b => Game.score t b == t) = some b0 →
        Game.determine_winner t bots = some b0)
    ∧ ((∃ b1 ∈ bots, Game.score t b1 ≤ t) →
        bots.find? (fun b => Game.score t b == t) = none →
        ∃ r l1 l2, Game.determine_winner t bots = some r
          ∧ bots.filter (fun b => Game.score t b ≤ t) = l1 ++ r :: l2
          ∧ (∀ x ∈ l1, Game.score t x < Game.score t r)
          ∧ (∀ x ∈ l2, Game.score t x ≤ Game.score t r)) := by
  refine ⟨fun hall => ?_, fun b0 hfind => ?_, fun hex hnone => ?_⟩
  · have hnil : bots.filter (fun b => Game.score t b ≤ t) = [] := by
      rw [List.filter_eq_nil_iff]
      intro b hb
      simpa using not_le.mpr (hall b hb)
    unfold Game.determine_winner
    rw [hnil]
  · have hvfind : (bots.filter (fun b => Game.score t b ≤ t)).find?
        (fun b => Game.score t b == t) = some b0 :=
      (find?_filter_exact t bots).trans hfind
    have hvmem : b0 ∈ bots.filter (fun b => Game.score t b ≤ t) :=
      List.mem_of_find?_eq_some hvfind
    obtain ⟨v, vs, hvv⟩ := List.exists_cons_of_ne_nil
      (List.ne_nil_of_mem hvmem)
    rw [hvv] at hvfind
    unfold Game.determine_winner
    rw [hvv]
    show (match (v :: vs).find? (fun b => Game.score t b == t) with
      | some b => some b
      | none => some (Game.pickMax t v vs)) = some b0
    rw [hvfind]
  · obtain ⟨b1, hb1, hle⟩ := hex
    have hvmem : b1 ∈ bots.filter (fun b => Game.score t b ≤ t) :=
      List.mem_filter.mpr ⟨hb1, by simpa using hle⟩
    obtain ⟨v, vs, hvv⟩ := List.exists_cons_of_ne_nil
      (List.ne_nil_of_mem hvmem)
    have hvnone : (v :: vs).find? (fun b => Game.score t b == t) = none := by
      rw [← hvv, find?_filter_exact]
      exact hnone
    obtain ⟨l1, l2, heq, h1, h2⟩ := pickMax_first t vs v
    refine ⟨Game.pickMax t v vs, l1, l2, ?_, hvv.trans heq, h1, h2⟩
    unfold Game.determine_winner
    rw [hvv]
    show (match (v :: vs).find? (fun b => Game.score t b == t) with
      | some b => some b
      | none => some (Game.pickMax t v vs)) = some (Game.pickMax t v vs)
    rw [hvnone]

/-- C5 witness: with both bots busted (scores 22), the heuristic yields
no winner. -/
theorem C5_determine_winner_heuristic_witness :
    Game.determine_winner 21 demoBustedBots = none :=
  (C5_determine_winner_heuristic 21 demoBustedBots).1 (by decide)

lemma draw_of_ne_nil : ∀ (d : List Card), d ≠ [] →
    ∃ c d1, Deck.draw d = (some c, d1) := by
  intro d
  induction d using List.reverseRecOn with
  | nil => intro hd; exact absurd rfl hd
  | append_singleton ds a _ => intro _; exact ⟨a, ds, by simp [Deck.draw]⟩

lemma playRound_exhaust_frame (t : Int) :
    ∀ (bots : List Bot) (deck : List Card) (i : Nat) (hi : i < bots.length),
      (Game.playRound t deck (bots.take i)).1 = [] →
      Game.attemptsDraw t (bots.get ⟨i, hi⟩) = true →
      (∀ j, i ≤ j → (Game.playRound t deck bots).2[j]? = bots[j]?)
      ∧ (Game.playRound t deck bots).1 = [] := by
  intro bots
  induction bots with
  | nil => intro deck i hi; exact absurd hi (Nat.not_lt_zero i)
  | cons b rest ih =>
    intro deck i hi hempty hat
    cases i with
    | zero =>
      have hdeck : deck = [] := hempty
      subst hdeck
      have hb : Game.attemptsDraw t b = true := hat
      simp only [Game.attemptsDraw, Bool.and_eq_true, decide_eq_true_eq] at hb
      obtain ⟨⟨hact, hsc⟩, hdec⟩ := hb
      have hstep : Game.playRound t [] (b :: rest) = ([], b :: rest) := by
        simp only [Game.playRound, hact, hdec, if_neg (not_le.mpr hsc)]
        rfl
      rw [hstep]
      exact ⟨fun j _ => rfl, rfl⟩
    | succ k =>
      have hk : k < rest.length := Nat.lt_of_succ_lt_succ hi
      by_cases hbreak : b.isActive = true ∧ Game.score t b < t
          ∧ b.decide 21 = true ∧ deck = []
      · obtain ⟨hact, hsc, hdec, hdeck⟩ := hbreak
        subst hdeck
        have hstep : Game.playRound t [] (b :: rest) = ([], b :: rest) := by
          simp only [Game.playRound, hact, hdec, if_neg (not_le.mpr hsc)]
          rfl
        rw [hstep]
        exact ⟨fun j _ => rfl, rfl⟩
      · have hstep : ∃ deck' b', ∀ l : List Bot, Game.playRound t deck (b :: l)
            = ((Game.playRound t deck' l).1, b' :: (Game.playRound t deck' l).2) := by
          by_cases hact : b.isActive = false
          · exact ⟨deck, b, fun l => by simp only [Game.playRound, if_pos hact]⟩
          · have hact' : b.isActive = true := by
              rcases Bool.eq_false_or_eq_true b.isActive with h | h
              · exact h
              · exact absurd h hact
            by_cases hsc : t ≤ Game.score t b
            · exact ⟨deck, { b with isActive := false },
                fun l => by simp only [Game.playRound, if_neg hact, if_pos hsc]⟩
            · by_cases hdec : b.decide 21 = true
              · have hne : deck ≠ [] := fun h =>
                  hbreak ⟨hact', not_le.mp hsc, hdec, h⟩
                obtain ⟨c, deck1, hdraw⟩ := draw_of_ne_nil deck hne
                refine ⟨deck1, { b with hand := b.hand ++ [c] }, fun l => ?_⟩
                simp only [Game.playRound, if_neg hact, if_neg hsc, hdec, hdraw]
                rfl
              · have hdec' : b.decide 21 = false := by
                  rcases Bool.eq_false_or_eq_true (b.decide 21) with h | h
                  · exact absurd h hdec
                  · exact h
                refine ⟨deck, b, fun l => ?_⟩
                simp only [Game.playRound, if_neg hact, if_neg hsc, hdec']
                rfl
        obtain ⟨deck', b', hstepf⟩ := hstep
        have hempty' : (Game.playRound t deck (b :: rest.take k)).1 = [] := hempty
        rw [hstepf (rest.take k)] at hempty'
        have hpre : (Game.playRound t deck' (rest.take k)).1 = [] := hempty'
        obtain ⟨hframe, hdeck⟩ := ih deck' k hk hpre hat
        refine ⟨?_, ?_⟩
        · intro j hij
          obtain ⟨jj, rfl⟩ : ∃ jj, j = jj + 1 := ⟨j - 1, by omega⟩
          rw [hstepf rest]
          show (b' :: (Game.playRound t deck' rest).2)[jj + 1]? = (b :: rest)[jj + 1]?
          simp only [List.getElem?_cons_succ]
          exact hframe jj (Nat.le_of_succ_le_succ hij)
        · rw [hstepf rest]
          exact hdeck

/-- C9: if the deck is exhausted by the time `_play_round` reaches bot
`i` — `(playRound t deck (bots.take i)).1` is the shared deck as it
stands when the loop reaches bot `i`, after the earlier bots' successful
draws — and bot `i` then attempts a draw, the loop breaks: bot `i` and
every later bot keep their hand and activity flag for that round, the
round ends with the deck empty, and the game loop proceeds to its
normal termination checks on the truncated round's state instead of
failing. -/
theorem C9_deck_exhaustion_truncates_round (t : Int) (deck : List Card)
    (bots : List Bot) (i : Nat) (hi : i < bots.length)
    (hempty : (Game.playRound t deck (bots.take i)).1 = [])
    (hat : Game.attemptsDraw t (bots.get ⟨i, hi⟩) = true) (n : Nat) :
    (∀ j, i ≤ j → (Game.playRound t deck bots).2[j]? = bots[j]?)
    ∧ (Game.playRound t deck bots).1 = []
    ∧ Game.runRounds t (n + 1) deck bots
        = Game.terminationStep t (Game.runRounds t n) [] (Game.playRound t deck bots).2 := by
  obtain ⟨hframe, hdeck⟩ := playRound_exhaust_frame t bots deck i hi hempty hat
  refine ⟨hframe, hdeck, ?_⟩
  show Game.terminationStep t (Game.runRounds t n) (Game.playRound t deck bots).1
      (Game.playRound t deck bots).2
    = Game.terminationStep t (Game.runRounds t n) [] (Game.playRound t deck bots).2
  rw [hdeck]

/-- C9 witness: mid-round exhaustion on a one-card deck — bot 0 draws
the last card, bot 1's draw then fails, so bots 1 and 2 are untouched
for the round, the deck ends empty, and the one-step game loop runs its
termination checks on the truncated state. -/
theorem C9_deck_exhaustion_truncates_round_witness :
    (Game.playRound 21 [⟨"Hearts", 3⟩] demoDrawBots).2[1]? = demoDrawBots[1]?
    ∧ (Game.playRound 21 [⟨"Hearts", 3⟩] demoDrawBots).2[2]? = demoDrawBots[2]?
    ∧ (Game.playRound 21 [⟨"Hearts", 3⟩] demoDrawBots).1 = []
    ∧ Game.runRounds 21 1 [⟨"Hearts", 3⟩] demoDrawBots
        = Game.terminationStep 21 (Game.runRounds 21 0) []
            (Game.playRound 21 [⟨"Hearts", 3⟩] demoDrawBots).2 := by
  have h := C9_deck_exhaustion_truncates_round 21 [⟨"Hearts", 3⟩] demoDrawBots 1
    (by decide) (by decide) (by decide) 0
  exact ⟨h.1 1 (le_refl 1), h.1 2 (by omega), h.2.1, h.2.2⟩

end CardGame
